import Mathlib

/- Verification of the Terminal Access NVDA add-on
   (src/addon/globalPlugins/terminalAccess.py) against its
   natural-language specification (spec.md).

   The Python classes are shallowly embedded: each method becomes a pure
   Lean function, mutable attributes become explicit state passed in and
   out, Python `dict`s (which preserve insertion order) become association
   lists in insertion order, timestamps become naturals (milliseconds),
   and a Python `try/except` boundary around a host primitive becomes an
   `Except Unit` value supplied by an abstract host. -/

set_option autoImplicit false

namespace TerminalAccess

/-! ## PositionCache (terminalAccess.py lines 156-254)

The cache is a Python dict keyed by `str(bookmark)`, mapping to
`(row, col, timestamp)`.  Python 3.7+ dicts preserve insertion order,
overwriting an existing key keeps its position, and `next(iter(d))` is the
first-inserted key, so the dict is embedded as an association list in
insertion order.  The serialized bookmark key is abstracted to a type `κ`
with decidable equality. -/

abbrev Cache (κ : Type) := List (κ × Nat × Nat × Nat)

namespace PositionCache

/-- `CACHE_TIMEOUT_MS = 1000` (1 second timeout). -/
def CACHE_TIMEOUT_MS : Nat := 1000

/-- `MAX_CACHE_SIZE = 100` (maximum number of cached positions). -/
def MAX_CACHE_SIZE : Nat := 100

variable {κ : Type} [DecidableEq κ]

/-- The keys of the cache, in insertion order. -/
def keys (c : Cache κ) : List κ := c.map Prod.fst

/-- The entry stored under key `k`, if any (Python: `self._cache[key]`,
guarded by `key in self._cache`). -/
def lookupEntry : Cache κ → κ → Option (Nat × Nat × Nat)
  | [], _ => none
  | (k', v) :: rest, k => if k' = k then some v else lookupEntry rest k

/-- Remove the entry stored under `k`, if any (Python:
`del self._cache[key]`). -/
def eraseKey : Cache κ → κ → Cache κ
  | [], _ => []
  | (k', v) :: rest, k => if k' = k then rest else (k', v) :: eraseKey rest k

/-- `PositionCache.get` (lines 197-217): return the cached `(row, col)` if
present and younger than `CACHE_TIMEOUT_MS`; an expired entry is deleted.
The pair returned is (result, cache state after the call). -/
def get (c : Cache κ) (k : κ) (now : Nat) : Option (Nat × Nat) × Cache κ :=
  match lookupEntry c k with
  | none => (none, c)
  | some (r, co, ts) =>
    if now - ts < CACHE_TIMEOUT_MS then (some (r, co), c)
    else (none, eraseKey c k)

/-- Python dict store `d[key] = v`: overwrite in place if the key exists,
otherwise append at the end of the insertion order. -/
def setEntry : Cache κ → κ → Nat × Nat × Nat → Cache κ
  | [], k, v => [(k, v)]
  | (k', v') :: rest, k, v =>
    if k' = k then (k, v) :: rest else (k', v') :: setEntry rest k v

/-- `PositionCache.set` (lines 219-237): if at capacity, first delete the
first-inserted entry (`next(iter(self._cache))`), then store
`(row, col, now)` under `k`. -/
def set (c : Cache κ) (k : κ) (row col now : Nat) : Cache κ :=
  setEntry (if MAX_CACHE_SIZE ≤ c.length then c.tail else c) k (row, col, now)

/-- `PositionCache.clear` (lines 239-242). -/
def clear (_ : Cache κ) : Cache κ := []

/-- `PositionCache.invalidate` (lines 244-254): delete the entry for `k`
if present. -/
def invalidate (c : Cache κ) (k : κ) : Cache κ := eraseKey c k

/-- One public cache operation, for stating invariants over arbitrary
operation sequences. -/
inductive CacheOp (κ : Type) where
  | set (k : κ) (row col now : Nat)
  | get (k : κ) (now : Nat)
  | invalidate (k : κ)
  | clear

/-- The state transition of one cache operation. -/
def applyOp (c : Cache κ) : CacheOp κ → Cache κ
  | .set k r co now => set c k r co now
  | .get k now => (get c k now).2
  | .invalidate k => invalidate c k
  | .clear => clear c

/-- Run a sequence of operations starting from the empty cache of the
constructor (line 192-195). -/
def runOps (ops : List (CacheOp κ)) : Cache κ := ops.foldl applyOp []

theorem length_setEntry_le (c : Cache κ) (k : κ) (v : Nat × Nat × Nat) :
    (setEntry c k v).length ≤ c.length + 1 := by
  induction c with
  | nil => simp [setEntry]
  | cons e rest ih =>
    obtain ⟨k', v'⟩ := e
    simp only [setEntry]
    split
    · simp
    · simpa using Nat.succ_le_succ ih

theorem length_eraseKey_le (c : Cache κ) (k : κ) :
    (eraseKey c k).length ≤ c.length := by
  induction c with
  | nil => simp [eraseKey]
  | cons e rest ih =>
    obtain ⟨k', v'⟩ := e
    simp only [eraseKey]
    split
    · simp
    · simpa using Nat.succ_le_succ ih

theorem length_get_snd_le (c : Cache κ) (k : κ) (now : Nat) :
    (get c k now).2.length ≤ c.length := by
  unfold get
  cases hl : lookupEntry c k with
  | none => simp
  | some v =>
    obtain ⟨r, co, ts⟩ := v
    dsimp only
    split
    · simp
    · exact length_eraseKey_le c k

theorem length_set_le (c : Cache κ) (k : κ) (r co now : Nat)
    (h : c.length ≤ MAX_CACHE_SIZE) :
    (set c k r co now).length ≤ MAX_CACHE_SIZE := by
  unfold set
  by_cases hc : MAX_CACHE_SIZE ≤ c.length
  · rw [if_pos hc]
    have h1 := length_setEntry_le c.tail k (r, co, now)
    have h2 : c.tail.length = c.length - 1 := by simp
    have hM : 0 < MAX_CACHE_SIZE := by decide
    omega
  · rw [if_neg hc]
    have h1 := length_setEntry_le c k (r, co, now)
    omega

theorem length_applyOp_le (c : Cache κ) (op : CacheOp κ)
    (h : c.length ≤ MAX_CACHE_SIZE) :
    (applyOp c op).length ≤ MAX_CACHE_SIZE := by
  cases op with
  | set k r co now => exact length_set_le c k r co now h
  | get k now => exact le_trans (length_get_snd_le c k now) h
  | invalidate k => exact le_trans (length_eraseKey_le c k) h
  | clear => simp [applyOp, clear]

theorem length_foldl_applyOp_le (ops : List (CacheOp κ)) (c : Cache κ)
    (h : c.length ≤ MAX_CACHE_SIZE) :
    (ops.foldl applyOp c).length ≤ MAX_CACHE_SIZE := by
  induction ops generalizing c with
  | nil => exact h
  | cons op rest ih => exact ih _ (length_applyOp_le c op h)

theorem mem_keys_setEntry_self (c : Cache κ) (k : κ) (v : Nat × Nat × Nat) :
    k ∈ keys (setEntry c k v) := by
  induction c with
  | nil => simp [setEntry, keys]
  | cons e rest ih =>
    obtain ⟨k', v'⟩ := e
    simp only [setEntry]
    split
    · simp [keys]
    · simpa [keys] using Or.inr ih

theorem mem_keys_setEntry_of_mem (c : Cache κ) (k a : κ) (v : Nat × Nat × Nat)
    (h : a ∈ keys c) : a ∈ keys (setEntry c k v) := by
  induction c with
  | nil => simp [keys] at h
  | cons e rest ih =>
    obtain ⟨k', v'⟩ := e
    simp only [keys, List.map_cons, List.mem_cons] at h
    simp only [setEntry]
    split
    · rename_i hk
      subst hk
      rcases h with h | h
      · simp [keys, h]
      · simp [keys, h]
    · rcases h with h | h
      · simp [keys, h]
      · simpa [keys] using Or.inr (ih h)

theorem not_mem_keys_setEntry (c : Cache κ) (k a : κ) (v : Nat × Nat × Nat)
    (hak : a ≠ k) (h : a ∉ keys c) : a ∉ keys (setEntry c k v) := by
  induction c with
  | nil => simpa [setEntry, keys] using hak
  | cons e rest ih =>
    obtain ⟨k', v'⟩ := e
    simp only [keys, List.map_cons, List.mem_cons] at h
    push_neg at h
    obtain ⟨h1, h2⟩ := h
    simp only [setEntry]
    split
    · simpa [keys, hak] using h2
    · simpa [keys, h1] using ih h2

theorem lookupEntry_setEntry_self (c : Cache κ) (k : κ) (v : Nat × Nat × Nat) :
    lookupEntry (setEntry c k v) k = some v := by
  induction c with
  | nil => simp [setEntry, lookupEntry]
  | cons e rest ih =>
    obtain ⟨k', v'⟩ := e
    simp only [setEntry]
    split
    · simp [lookupEntry]
    · rename_i hk
      simp [lookupEntry, hk, ih]

end PositionCache

open PositionCache in
/-- C5: after any sequence of `set`, `get`, `invalidate` and `clear`
operations, the cache holds at most `MAX_CACHE_SIZE` (100) entries; and
when a `set` occurs at capacity, the entry evicted is the oldest-inserted
one (the head of the insertion order, FIFO): after the eviction the
oldest key is gone, the new key is present, and every other key is kept. -/
theorem cache_size_bound_and_fifo_eviction :
    (∀ (κ : Type) [DecidableEq κ] (ops : List (CacheOp κ)),
      (runOps ops).length ≤ MAX_CACHE_SIZE) ∧
    (∀ (κ : Type) [DecidableEq κ] (e : κ × Nat × Nat × Nat) (rest : Cache κ)
      (k : κ) (r co t : Nat),
      MAX_CACHE_SIZE ≤ ((e :: rest : Cache κ)).length →
      e.1 ∉ keys rest → k ≠ e.1 →
      e.1 ∉ keys (PositionCache.set (e :: rest) k r co t) ∧
      k ∈ keys (PositionCache.set (e :: rest) k r co t) ∧
      ∀ k', k' ∈ keys rest → k' ∈ keys (PositionCache.set (e :: rest) k r co t)) := by
  constructor
  · intro κ _ ops
    exact length_foldl_applyOp_le ops [] (by simp)
  · intro κ _ e rest k r co t hlen hmem hk
    have hset : PositionCache.set (e :: rest) k r co t = setEntry rest k (r, co, t) := by
      unfold PositionCache.set
      rw [if_pos hlen]
      rfl
    rw [hset]
    refine ⟨?_, ?_, ?_⟩
    · exact not_mem_keys_setEntry rest k e.1 (r, co, t) (fun h => hk h.symm) hmem
    · exact mem_keys_setEntry_self rest k (r, co, t)
    · intro k' hk'
      exact mem_keys_setEntry_of_mem rest k k' (r, co, t) hk'

open PositionCache in
/-- Witness for C5 at concrete inputs: a one-operation run stays within the
bound, and a concrete 100-entry cache evicts its first-inserted key 0 when
key 100 is stored. -/
theorem cache_size_bound_and_fifo_eviction_witness :
    (runOps [CacheOp.set (5 : Nat) 1 2 3]).length ≤ MAX_CACHE_SIZE ∧
    (0 : Nat) ∉ keys (PositionCache.set (((0, 1, 1, 0) : Nat × Nat × Nat × Nat) ::
      ((List.range 99).map fun i => (i + 1, 1, 1, 0))) 100 2 3 50) := by
  constructor
  · exact cache_size_bound_and_fifo_eviction.1 Nat _
  · exact (cache_size_bound_and_fifo_eviction.2 Nat
      ((0, 1, 1, 0) : Nat × Nat × Nat × Nat)
      ((List.range 99).map fun i => (i + 1, 1, 1, 0)) 100 2 3 50
      (by decide) (by decide) (by decide)).1

open PositionCache in
/-- C6: `PositionCache.get` returns the stored pair exactly when an entry
exists whose age `now - timestamp` is strictly below `CACHE_TIMEOUT_MS`
(1000 ms), leaving the cache unchanged; an expired entry is removed and
absence is reported; a missing key reports absence; and a `get` performed
strictly later than `TTL` after a `set` of that key reports absence.  The
function is total, so no exception can escape. -/
theorem cache_get_ttl_semantics :
    ∀ (κ : Type) [DecidableEq κ] (c : Cache κ) (k : κ) (now : Nat),
      (∀ r co ts, lookupEntry c k = some (r, co, ts) →
        now - ts < CACHE_TIMEOUT_MS → PositionCache.get c k now = (some (r, co), c)) ∧
      (∀ r co ts, lookupEntry c k = some (r, co, ts) →
        ¬(now - ts < CACHE_TIMEOUT_MS) → PositionCache.get c k now = (none, eraseKey c k)) ∧
      (lookupEntry c k = none → PositionCache.get c k now = (none, c)) ∧
      (∀ r co t, t + CACHE_TIMEOUT_MS < now →
        (PositionCache.get (PositionCache.set c k r co t) k now).1 = none) := by
  intro κ _ c k now
  refine ⟨?_, ?_, ?_, ?_⟩
  · intro r co ts hl hfresh
    unfold PositionCache.get
    rw [hl]
    simp [hfresh]
  · intro r co ts hl hstale
    unfold PositionCache.get
    rw [hl]
    simp [hstale]
  · intro hl
    unfold PositionCache.get
    rw [hl]
  · intro r co t ht
    unfold PositionCache.get PositionCache.set
    rw [lookupEntry_setEntry_self]
    have hstale : ¬(now - t < CACHE_TIMEOUT_MS) := by omega
    simp [hstale]

open PositionCache in
/-- Witness for C6 at concrete inputs: a fresh entry is returned and an
entry PositionCache.set at time 0 is absent when read at time 2000. -/
theorem cache_get_ttl_semantics_witness :
    PositionCache.get [((1 : Nat), 2, 3, 10)] 1 11 = (some (2, 3), [(1, 2, 3, 10)]) ∧
    (PositionCache.get (PositionCache.set ([] : Cache Nat) 1 2 3 0) 1 2000).1 = none := by
  constructor
  · exact (cache_get_ttl_semantics Nat [(1, 2, 3, 10)] 1 11).1 2 3 10
      (by decide) (by decide)
  · exact (cache_get_ttl_semantics Nat [] 1 2000).2.2.2 2 3 0 (by decide)

/-! ## PositionCalculator (terminalAccess.py lines 1990-2245)

`calculate` is embedded against an abstract host: each Python block that
can raise inside a `try` is represented by an `Except Unit` value.
`bookmark` stands for the `textInfo.bookmark` access; `incremental`
stands for the body of `_try_incremental_calculation` (the
`makeTextInfo`, `compareEndPoints` and `_calculate_incremental` calls):
`.error ()` means a host primitive raised there, `.ok none` means the
distance exceeded 10 lines or `_calculate_incremental` returned `None`,
`.ok (some rc)` means the incremental walk produced `rc`.  `fullWalk`
stands for the body of `_calculate_full`: `.error ()` means a host
primitive raised there.  The cache writes and the `_last_known_position`
update that Python performs inside the successful branches are performed
by `calculate` on the corresponding success results, which is observably
identical. -/

structure CalcHost (κ : Type) where
  attached : Bool
  bookmark : Except Unit κ
  incremental : Except Unit (Option (Nat × Nat))
  fullWalk : Except Unit (Nat × Nat)

structure CalcState (κ : Type) where
  cache : Cache κ
  lastKnown : Option (κ × Nat × Nat)

namespace PositionCalculator

variable {κ : Type} [DecidableEq κ]

/-- `_try_incremental_calculation` (lines 2076-2111): every exception in
its body is caught by `except Exception: pass`, yielding `None`. -/
def try_incremental_calculation (host : CalcHost κ) : Option (Nat × Nat) :=
  match host.incremental with
  | .error _ => none
  | .ok r => r

/-- `PositionCalculator.calculate` (lines 2029-2074): cache lookup, then
the incremental path (only when `_last_known_position` is set), then the
full walk; `(0, 0)` whenever the terminal is absent, the bookmark access
raises, or the full walk raises. -/
def calculate (host : CalcHost κ) (st : CalcState κ) (now : Nat) :
    (Nat × Nat) × CalcState κ :=
  if !host.attached then ((0, 0), st)
  else
    match host.bookmark with
    | .error _ => ((0, 0), st)
    | .ok bm =>
      match PositionCache.get st.cache bm now with
      | (some rc, cache') => (rc, { st with cache := cache' })
      | (none, cache') =>
        match if st.lastKnown.isSome then try_incremental_calculation host else none with
        | some (r, co) =>
          ((r, co), { cache := PositionCache.set cache' bm r co now,
                      lastKnown := some (bm, r, co) })
        | none =>
          match host.fullWalk with
          | .error _ => ((0, 0), { st with cache := cache' })
          | .ok (r, co) =>
            ((r, co), { cache := PositionCache.set cache' bm r co now,
                        lastKnown := some (bm, r, co) })

end PositionCalculator

open PositionCalculator in
/-- C4: `calculate` always returns a value (it is a total function, so no
exception propagates); it returns the `(0, 0)` sentinel when the terminal
is not attached, when the bookmark access raises, and when the full walk
raises after the incremental path was unusable; and a raise on the
incremental path alone merely falls back to the full walk for that call,
whose result is returned when it succeeds. -/
theorem calculate_sentinel_and_fallback :
    ∀ (κ : Type) [DecidableEq κ] (host : CalcHost κ) (st : CalcState κ) (now : Nat),
      (host.attached = false → calculate host st now = ((0, 0), st)) ∧
      (host.bookmark = .error () → (calculate host st now).1 = (0, 0)) ∧
      (∀ bm, host.attached = true → host.bookmark = .ok bm →
        (PositionCache.get st.cache bm now).1 = none →
        (host.incremental = .error () →
          (∀ r co, host.fullWalk = .ok (r, co) →
            (calculate host st now).1 = (r, co)) ∧
          (host.fullWalk = .error () → (calculate host st now).1 = (0, 0))) ∧
        ((st.lastKnown = none ∨ try_incremental_calculation host = none) →
          host.fullWalk = .error () → (calculate host st now).1 = (0, 0))) := by
  intro κ _ host st now
  refine ⟨?_, ?_, ?_⟩
  · intro h
    unfold calculate
    simp [h]
  · intro h
    unfold calculate
    cases ha : host.attached with
    | false => simp
    | true => simp [h]
  · intro bm ha hbm hmiss
    rcases hE : PositionCache.get st.cache bm now with ⟨res, cache'⟩
    rw [hE] at hmiss
    obtain rfl : res = none := hmiss
    constructor
    · intro hinc
      have hi : try_incremental_calculation host = none := by
        unfold try_incremental_calculation
        rw [hinc]
      constructor
      · intro r co hfw
        unfold calculate
        simp [ha, hbm, hE, hi, hfw]
      · intro hfw
        unfold calculate
        simp [ha, hbm, hE, hi, hfw]
    · intro hnone hfw
      unfold calculate
      rcases hnone with hlk | hi
      · simp [ha, hbm, hE, hlk, hfw]
      · simp [ha, hbm, hE, hi, hfw]

open PositionCalculator in
/-- Witness for C4 at concrete inputs: an unattached host yields the
sentinel, and a host whose incremental path raises but whose full walk
returns `(3, 4)` yields `(3, 4)`. -/
theorem calculate_sentinel_and_fallback_witness :
    calculate (⟨false, .ok 5, .ok none, .ok (1, 1)⟩ : CalcHost Nat)
      ⟨[], none⟩ 0 = ((0, 0), ⟨[], none⟩) ∧
    (calculate (⟨true, .ok 5, .error (), .ok (3, 4)⟩ : CalcHost Nat)
      ⟨[], some (9, 1, 1)⟩ 0).1 = (3, 4) := by
  constructor
  · exact (calculate_sentinel_and_fallback Nat
      (⟨false, .ok 5, .ok none, .ok (1, 1)⟩ : CalcHost Nat)
      ⟨[], none⟩ 0).1 rfl
  · exact (((calculate_sentinel_and_fallback Nat
      (⟨true, .ok 5, .error (), .ok (3, 4)⟩ : CalcHost Nat)
      ⟨[], some (9, 1, 1)⟩ 0).2.2 5 rfl rfl (by decide)).1 rfl).1 3 4 rfl

/-! ## WindowMonitor (terminalAccess.py lines 2434-2724)

The monitor list `self._monitors` is a list of dicts; `_last_content` and
`_last_announcement` are dicts keyed by the monitor name.  `_last_content`
is initialized to `None` for a fresh name and `_last_content.get(name)`
returns `None` both for an absent key and for the explicit `None`, so an
absent key in the embedded association list represents both.  One poll of
one region (`_check_window` with the content `_extract_window_content`
produced) returns the new state and the list of messages sent to
`ui.message`. -/

structure Monitor where
  name : String
  top : Int
  left : Int
  bottom : Int
  right : Int
  interval : Nat
  mode : String
  lastCheck : Nat
  enabled : Bool

structure MonitorState where
  monitors : List Monitor
  lastContent : List (String × String)
  lastAnnouncement : List (String × Nat)

namespace WindowMonitor

/-- `self._min_announcement_interval = 2000` (line 2481). -/
def MIN_ANNOUNCEMENT_INTERVAL : Nat := 2000

/-- Python `d.get(k)` on a dict embedded as an association list. -/
def lookupS {α : Type} : List (String × α) → String → Option α
  | [], _ => none
  | (k', v) :: rest, k => if k' = k then some v else lookupS rest k

/-- Python `d[k] = v` on a dict embedded as an association list. -/
def storeS {α : Type} : List (String × α) → String → α → List (String × α)
  | [], k, v => [(k, v)]
  | (k', v') :: rest, k, v =>
    if k' = k then (k, v) :: rest else (k', v') :: storeS rest k v

theorem lookupS_storeS_self {α : Type} (l : List (String × α)) (k : String) (v : α) :
    lookupS (storeS l k v) k = some v := by
  induction l with
  | nil => simp [storeS, lookupS]
  | cons e rest ih =>
    obtain ⟨k', v'⟩ := e
    simp only [storeS]
    split
    · simp [lookupS]
    · rename_i hk
      simp [lookupS, hk, ih]

/-- `WindowMonitor.add_monitor` (lines 2483-2517): reject a duplicate name
or bounds failing `1 <= top <= bottom and 1 <= left <= right`; otherwise
append the registration and initialize its baseline (`None`) and last
announcement time (0). -/
def add_monitor (st : MonitorState) (name : String) (top left bottom right : Int)
    (interval_ms : Nat) (mode : String) : Bool × MonitorState :=
  if st.monitors.any (fun m => m.name = name) then (false, st)
  else if ¬(1 ≤ top ∧ top ≤ bottom ∧ 1 ≤ left ∧ left ≤ right) then (false, st)
  else
    (true,
      { monitors := st.monitors ++ [⟨name, top, left, bottom, right, interval_ms, mode, 0, true⟩],
        lastContent := st.lastContent,
        lastAnnouncement := storeS st.lastAnnouncement name 0 })

/-- `WindowMonitor._announce_change` (lines 2684-2704): when the previous
content is `None` (first content) nothing is announced; otherwise one
message is sent to `ui.message`. -/
def announce_change (name : String) (old : Option String) : List String :=
  match old with
  | none => []
  | some _ => ["Window " ++ name ++ " changed"]

/-- `WindowMonitor._check_window` (lines 2616-2644): compare the extracted
content against the stored baseline; on a difference, store the new
content unconditionally, then announce only in `changes` mode and only if
at least `MIN_ANNOUNCEMENT_INTERVAL` elapsed since this region's last
announcement (in which case the last-announcement time is updated). -/
def check_window (st : MonitorState) (mon : Monitor) (t : Nat) (content : String) :
    MonitorState × List String :=
  let last := lookupS st.lastContent mon.name
  if last = some content then (st, [])
  else
    let st1 : MonitorState :=
      { st with lastContent := storeS st.lastContent mon.name content }
    if mon.mode = "changes" then
      if MIN_ANNOUNCEMENT_INTERVAL ≤ t - (lookupS st.lastAnnouncement mon.name).getD 0 then
        ({ st1 with lastAnnouncement := storeS st.lastAnnouncement mon.name t },
          announce_change mon.name last)
      else (st1, [])
    else (st1, [])

end WindowMonitor

open WindowMonitor in
/-- C8 as stated is refuted by `add_monitor_counterexample`; amended:
`add_monitor` returns `False` and leaves the state unchanged whenever the
name duplicates an existing registration or the bounds fail
`1 ≤ top ≤ bottom` or `1 ≤ left ≤ right` (so also when `top < 1` or
`left < 1`, not only when `bottom < top` or `right < left`); otherwise it
appends the registration and returns `True`; it returns a boolean in
every case. -/
theorem add_monitor_validation :
    ∀ (st : MonitorState) (name : String) (top left bottom right : Int)
      (iv : Nat) (mode : String),
      ((add_monitor st name top left bottom right iv mode).1 = true ↔
        (st.monitors.any (fun m => m.name = name)) = false ∧
        1 ≤ top ∧ top ≤ bottom ∧ 1 ≤ left ∧ left ≤ right) ∧
      ((add_monitor st name top left bottom right iv mode).1 = false →
        (add_monitor st name top left bottom right iv mode).2 = st) ∧
      ((add_monitor st name top left bottom right iv mode).1 = true →
        (add_monitor st name top left bottom right iv mode).2.monitors =
          st.monitors ++ [⟨name, top, left, bottom, right, iv, mode, 0, true⟩]) := by
  intro st name top left bottom right iv mode
  unfold add_monitor
  by_cases hdup : st.monitors.any (fun m => m.name = name)
  · simp [hdup]
  · by_cases hb : 1 ≤ top ∧ top ≤ bottom ∧ 1 ≤ left ∧ left ≤ right
    · simp [hdup, hb]
    · simp only [Bool.not_eq_true] at hdup
      simp [hdup, hb]

open WindowMonitor in
/-- Witness for the amended C8 at concrete inputs: valid bounds on an
empty monitor set are accepted. -/
theorem add_monitor_validation_witness :
    (add_monitor ⟨[], [], []⟩ "build" 1 1 10 80 1000 "changes").1 = true := by
  exact (add_monitor_validation ⟨[], [], []⟩ "build" 1 1 10 80 1000 "changes").1.mpr
    (by decide)

open WindowMonitor in
/-- Counterexample to C8 as stated: with no registered monitors and bounds
`(top, left, bottom, right) = (0, 1, 5, 5)` we have `bottom ≥ top` and
`right ≥ left` and no duplicate name, so the claim demands registration
and `True`, but the code returns `False` and registers nothing, because
it also requires `top ≥ 1`. -/
theorem add_monitor_counterexample :
    (add_monitor ⟨[], [], []⟩ "a" 0 1 5 5 500 "changes").1 = false ∧
    (add_monitor ⟨[], [], []⟩ "a" 0 1 5 5 500 "changes").2.monitors = [] ∧
    ¬((5 : Int) < 0) ∧ ¬((5 : Int) < 1) := by
  refine ⟨?_, ?_, by decide, by decide⟩
  · rfl
  · rfl

open WindowMonitor in
/-- C9: a poll of a `silent`-mode region never sends anything to the
output sink, whatever the content; and for any region the
baseline-establishing poll (no previous content stored) never produces an
announcement. -/
theorem check_window_silent_and_initial_quiet :
    ∀ (st : MonitorState) (mon : Monitor) (t : Nat) (content : String),
      (mon.mode = "silent" → (check_window st mon t content).2 = []) ∧
      (lookupS st.lastContent mon.name = none →
        (check_window st mon t content).2 = []) := by
  intro st mon t content
  constructor
  · intro hm
    have hne : mon.mode ≠ "changes" := by
      rw [hm]
      decide
    unfold check_window
    by_cases hlast : lookupS st.lastContent mon.name = some content
    · simp [hlast]
    · simp [hlast, hne]
  · intro hnone
    have hlast : ¬(lookupS st.lastContent mon.name = some content) := by
      rw [hnone]
      simp
    unfold check_window
    by_cases hc : mon.mode = "changes"
    · by_cases hr : MIN_ANNOUNCEMENT_INTERVAL ≤
        t - (lookupS st.lastAnnouncement mon.name).getD 0
      · simp [hlast, hc, hr, hnone, announce_change]
      · simp [hlast, hc, hr]
    · simp [hlast, hc]

open WindowMonitor in
/-- Witness for C9 at concrete inputs: a silent region's poll with changed
content speaks nothing, and the first poll of a fresh `changes` region
speaks nothing. -/
theorem check_window_silent_and_initial_quiet_witness :
    (check_window ⟨[], [("m", "old")], []⟩
      ⟨"m", 1, 1, 5, 5, 500, "silent", 0, true⟩ 999999 "new").2 = [] ∧
    (check_window ⟨[], [], []⟩
      ⟨"m", 1, 1, 5, 5, 500, "changes", 0, true⟩ 999999 "first").2 = [] := by
  constructor
  · exact (check_window_silent_and_initial_quiet ⟨[], [("m", "old")], []⟩
      ⟨"m", 1, 1, 5, 5, 500, "silent", 0, true⟩ 999999 "new").1 rfl
  · exact (check_window_silent_and_initial_quiet ⟨[], [], []⟩
      ⟨"m", 1, 1, 5, 5, 500, "changes", 0, true⟩ 999999 "first").2 rfl

open WindowMonitor in
/-- C10: when a `changes` region's content differs from the baseline but
the minimum inter-announcement interval has not elapsed, nothing is
spoken yet the new content still replaces the baseline, so the change is
dropped permanently: a later poll with the same content announces nothing
at any time, while a poll with content changed yet again (relative to the
updated baseline) announces once the interval is satisfied. -/
theorem check_window_rate_limited_drop :
    ∀ (st : MonitorState) (mon : Monitor) (t : Nat) (content : String),
      mon.mode = "changes" →
      lookupS st.lastContent mon.name ≠ some content →
      t - (lookupS st.lastAnnouncement mon.name).getD 0 < MIN_ANNOUNCEMENT_INTERVAL →
      (check_window st mon t content).2 = [] ∧
      lookupS (check_window st mon t content).1.lastContent mon.name = some content ∧
      (∀ t', (check_window (check_window st mon t content).1 mon t' content).2 = []) ∧
      (∀ t' content', content' ≠ content →
        MIN_ANNOUNCEMENT_INTERVAL ≤ t' - (lookupS st.lastAnnouncement mon.name).getD 0 →
        (check_window (check_window st mon t content).1 mon t' content').2 ≠ []) := by
  intro st mon t content hm hdiff hrate
  have hrate' : ¬(MIN_ANNOUNCEMENT_INTERVAL ≤
      t - (lookupS st.lastAnnouncement mon.name).getD 0) := by omega
  have hrun : check_window st mon t content =
      ({ st with lastContent := storeS st.lastContent mon.name content }, []) := by
    unfold check_window
    simp [hdiff, hm, hrate']
  refine ⟨by rw [hrun], ?_, ?_, ?_⟩
  · rw [hrun]
    exact lookupS_storeS_self st.lastContent mon.name content
  · intro t'
    rw [hrun]
    unfold check_window
    simp [lookupS_storeS_self]
  · intro t' content' hne hok
    rw [hrun]
    unfold check_window
    have hcc : ¬(content = content') := fun h => hne h.symm
    simp [hm, hok, lookupS_storeS_self, hcc, announce_change]

open WindowMonitor in
/-- Witness for C10 at concrete inputs: a change 100 ms after the last
announcement is suppressed but replaces the baseline. -/
theorem check_window_rate_limited_drop_witness :
    (check_window ⟨[], [("m", "old")], [("m", 100)]⟩
      ⟨"m", 1, 1, 5, 5, 500, "changes", 0, true⟩ 200 "new").2 = [] ∧
    lookupS (check_window ⟨[], [("m", "old")], [("m", 100)]⟩
      ⟨"m", 1, 1, 5, 5, 500, "changes", 0, true⟩ 200 "new").1.lastContent "m" =
      some "new" := by
  have h := check_window_rate_limited_drop ⟨[], [("m", "old")], [("m", 100)]⟩
    ⟨"m", 1, 1, 5, 5, 500, "changes", 0, true⟩ 200 "new" rfl (by decide) (by decide)
  exact ⟨h.1, h.2.1⟩

/-! ## GlobalPlugin._announceStandardCursor (terminalAccess.py lines 4193-4222)

The timer callback of the cursor announcer.  Inputs: the caret position
(`info.bookmark.startOffset`, `None` when the host object has no
bookmark), the character under the caret after
`expand(UNIT_CHARACTER)` (`info.text`), and the stored
`self._lastCaretPosition`; `speakForm` stands for the
`_shouldProcessSymbol`/`_processSymbol` pair, which only chooses the
spoken form of a non-blank character.  The result is the new
`_lastCaretPosition` and the messages sent to `ui.message`.  Python's
`char and char.strip()` is truthy exactly when the string contains a
non-whitespace character. -/

namespace GlobalPlugin

/-- Truthiness of Python `char and char.strip()`: the string is nonempty
and stripping whitespace leaves something, i.e. some character is not
whitespace. -/
def hasNonWhitespace (ch : String) : Bool :=
  ch.toList.any fun c => !c.isWhitespace

/-- `_announceStandardCursor`: return early when the position equals
`_lastCaretPosition`; otherwise record the position, then speak a
non-blank character, speak `"space"` for a space, and speak nothing for
an empty or whitespace-only character. -/
def announceStandardCursor (speakForm : String → String) (last pos : Option Nat)
    (ch : String) : Option Nat × List String :=
  if pos = last then (last, [])
  else if hasNonWhitespace ch then (pos, [speakForm ch])
  else if ch = " " then (pos, ["space"])
  else (pos, [])

end GlobalPlugin

open GlobalPlugin in
/-- C1 at its failing input: a caret event at a fresh position whose
character is empty (or a newline), with no character typed beforehand,
produces no speech at all — the code contains no "blank" announcement and
no typing-grace check, while the claim (and the repository's own
test_deferred_blank.py) require a "blank" announcement in this case.  The
non-blank parts of the claim do hold: a space speaks the token "space"
and a printable character is spoken immediately. -/
theorem announceStandardCursor_blank_is_silent :
    announceStandardCursor id none (some 100) "" = (some 100, []) ∧
    announceStandardCursor id none (some 100) "\n" = (some 100, []) ∧
    announceStandardCursor id none (some 100) " " = (some 100, ["space"]) ∧
    announceStandardCursor id none (some 100) "a" = (some 100, ["a"]) := by
  refine ⟨rfl, ?_, ?_, ?_⟩ <;> decide

open GlobalPlugin in
/-- Counterexample to C7 as stated: a blank-character event at position
100 speaks nothing, yet the code records 100 as the last position, so a
following event at position 100 with the printable character "a" also
speaks nothing — under the claim, a position at which nothing was spoken
would not count as the last announced position and "a" would be spoken. -/
theorem announceStandardCursor_counterexample :
    (announceStandardCursor id none (some 100) "").2 = [] ∧
    (announceStandardCursor id
      (announceStandardCursor id none (some 100) "").1 (some 100) "a").2 = [] := by
  constructor
  · rfl
  · decide

open GlobalPlugin in
/-- C7 amended: when the timer fires, if the current cursor position is
identical to the last position the callback processed, nothing is done
and nothing is spoken (idempotent over repeated events at the same
position); the recorded last position is updated on every processed
event, whether or not anything was spoken. -/
theorem announceStandardCursor_idempotent :
    ∀ (speakForm : String → String) (last pos : Option Nat) (ch : String),
      (pos = last →
        announceStandardCursor speakForm last pos ch = (last, [])) ∧
      (announceStandardCursor speakForm last pos ch).1 = pos := by
  intro speakForm last pos ch
  constructor
  · intro h
    unfold announceStandardCursor
    simp [h]
  · unfold announceStandardCursor
    by_cases h : pos = last
    · simp [h]
    · simp only [h, if_false]
      split
      · rfl
      · split
        · rfl
        · rfl

open GlobalPlugin in
/-- Witness for the amended C7 at concrete inputs: a repeated event at
position 5 with a printable character is ignored. -/
theorem announceStandardCursor_idempotent_witness :
    announceStandardCursor id (some 5) (some 5) "a" = (some 5, []) := by
  exact (announceStandardCursor_idempotent id (some 5) (some 5) "a").1 rfl

/-! ## TextDiffer (spec.md section 4.3)

src/tests/test_new_output_announcer.py imports `TextDiffer` from
`globalPlugins.terminalAccess`, but no such class exists under src/addon:
the implementation is missing from the provided sources, so it is
modelled from the spec.  Texts are sequences of characters
(`List Char`). -/

abbrev Text := List Char

/-- The classification kinds of spec section 4.3
(`INITIAL`, `UNCHANGED`, `APPENDED`, `LAST_LINE_UPDATED`, `CHANGED`). -/
inductive DiffKind where
  | initial
  | unchanged
  | appended
  | lastLineUpdated
  | changed
deriving DecidableEq

namespace TextDiffer

/-- Python `text.split("\n")`: always at least one piece, a trailing
newline yields a trailing empty piece. -/
def lines : Text → List Text
  | [] => [[]]
  | c :: rest =>
    if c = '\n' then [] :: lines rest
    else
      match lines rest with
      | [] => [[c]]
      | l :: ls => (c :: l) :: ls

/-- Modelled from the spec: `TextDiffer.update` (spec section 4.3); the
class is absent from src/addon, only src/tests reference it.  The state
is the stored baseline (none before the first call).  Classify against
the baseline in the spec's priority order — equal, strict prefix, all
lines but the final one identical with no line added or removed, other —
then store the new text unconditionally.  `LAST_LINE_UPDATED` requires at
least two lines: on single-line texts there are no lines besides the
final one to be identical on, and the spec's section 8 example
(`"foo"` then `"bar"` → `CHANGED`) fixes that reading. -/
def update (st : Option Text) (new : Text) : (DiffKind × Text) × Option Text :=
  match st with
  | none => ((.initial, []), some new)
  | some old =>
    if old = new then ((.unchanged, []), some new)
    else if old <+: new then ((.appended, new.drop old.length), some new)
    else if (lines old).length = (lines new).length ∧
        1 < (lines new).length ∧
        (lines old).dropLast = (lines new).dropLast then
      ((.lastLineUpdated, (lines new).getLastD []), some new)
    else ((.changed, []), some new)

end TextDiffer

open TextDiffer in
/-- C2 as stated is refuted by `textDiffer_update_counterexample`;
amended (modelled from the spec): `update` classifies `new` against the
stored baseline and stores `new` unconditionally; a first call is
`INITIAL`; equal texts are `UNCHANGED` with empty payload; a strict
prefix extension is `APPENDED` with payload exactly the suffix past the
old length; same line count of at least two with all but the final line
identical is `LAST_LINE_UPDATED` with payload the new final line; any
other pair — including a rewritten single-line text — is `CHANGED` with
empty payload. -/
theorem textDiffer_update_classification :
    ∀ (st : Option Text) (new : Text),
      (update st new).2 = some new ∧
      (st = none → (update st new).1 = (.initial, [])) ∧
      (∀ old, st = some old →
        (old = new → (update st new).1 = (.unchanged, [])) ∧
        (old ≠ new → old <+: new →
          (update st new).1 = (.appended, new.drop old.length)) ∧
        (old ≠ new → ¬(old <+: new) →
          (lines old).length = (lines new).length →
          1 < (lines new).length →
          (lines old).dropLast = (lines new).dropLast →
          (update st new).1 = (.lastLineUpdated, (lines new).getLastD [])) ∧
        (old ≠ new → ¬(old <+: new) →
          ¬((lines old).length = (lines new).length ∧
            1 < (lines new).length ∧
            (lines old).dropLast = (lines new).dropLast) →
          (update st new).1 = (.changed, []))) := by
  intro st new
  refine ⟨?_, ?_, ?_⟩
  · cases st with
    | none => rfl
    | some old =>
      unfold update
      dsimp only
      split
      · rfl
      · split
        · rfl
        · split
          · rfl
          · rfl
  · intro h
    subst h
    rfl
  · intro old h
    subst h
    refine ⟨?_, ?_, ?_, ?_⟩
    · intro he
      simp [update, he]
    · intro hne hpre
      simp [update, hne, hpre]
    · intro hne hpre hlen htwo hinit
      simp [update, hne, hpre, hlen, htwo, hinit]
    · intro hne hpre hother
      simp only [update]
      rw [if_neg hne, if_neg hpre, if_neg hother]

open TextDiffer in
/-- Counterexample to C2 as stated: `"foo"` then `"bar"` have the same
line count (one line each) and are vacuously identical on every line
except the final one, so the claim demands `LAST_LINE_UPDATED` with
payload `"bar"`; the differ classifies this pair `CHANGED` with empty
payload, exactly as the spec's own section 8 example requires. -/
theorem textDiffer_update_counterexample :
    (update (some "foo".toList) "bar".toList).1 = (.changed, []) ∧
    (lines "foo".toList).length = (lines "bar".toList).length ∧
    (lines "foo".toList).dropLast = (lines "bar".toList).dropLast ∧
    (DiffKind.changed, ([] : Text)) ≠
      (.lastLineUpdated, (lines "bar".toList).getLastD []) := by
  refine ⟨?_, by decide, by decide, by decide⟩
  decide

open TextDiffer in
/-- Witness for C2 on the spec's own examples: append, last-line rewrite,
opaque change, and no change. -/
theorem textDiffer_update_classification_witness :
    (update (some "a\n".toList) "a\nb\n".toList).1 =
      (.appended, "b\n".toList) ∧
    (update (some "x\n|".toList) "x\n/".toList).1 =
      (.lastLineUpdated, "/".toList) ∧
    (update (some "foo".toList) "bar".toList).1 = (.changed, []) ∧
    (update (some "a\nb\n".toList) "a\nb\n".toList).1 = (.unchanged, []) := by
  refine ⟨?_, ?_, ?_, ?_⟩
  · exact (((textDiffer_update_classification (some "a\n".toList)
      "a\nb\n".toList).2.2 "a\n".toList rfl).2.1 (by decide) (by decide)).trans
      (by decide)
  · exact ((((textDiffer_update_classification (some "x\n|".toList)
      "x\n/".toList).2.2 "x\n|".toList rfl).2.2.1 (by decide) (by decide)
      (by decide) (by decide) (by decide))).trans (by decide)
  · exact (((textDiffer_update_classification (some "foo".toList)
      "bar".toList).2.2 "foo".toList rfl).2.2.2 (by decide) (by decide)
      (by decide))
  · exact (((textDiffer_update_classification (some "a\nb\n".toList)
      "a\nb\n".toList).2.2 "a\nb\n".toList rfl).1 rfl)

/-! ## ChangeAnnouncer (spec.md section 4.4)

Modelled from the spec: the class (`NewOutputAnnouncer` in src/tests) is
absent from src/addon.  Time is discrete (milliseconds).  The single
coalescing flush timer is represented by the absolute time at which it
will fire; `run` processes feed events in nondecreasing time order,
firing a pending timer before any feed whose time has reached it, and
finally firing a still-pending timer that is due before `endT`.  The host
ANSI stripper is a parameter (`strip`), applied only when `ansiStrip` is
set, as in the spec's "optionally strip ANSI escape sequences
(configurable)". -/

structure CAConfig where
  delay : Nat
  quiet : Bool
  ansiStrip : Bool
  strip : Text → Text
  maxLines : Nat

structure CAState where
  baseline : Option Text
  pending : Text
  timerAt : Option Nat

namespace ChangeAnnouncer

/-- Modelled from the spec: `feed` runs the snapshot through the owned
TextDiffer; `APPENDED` accumulates the payload onto the pending text,
`LAST_LINE_UPDATED` replaces the pending text, and each of these
qualifying events cancels the previous flush timer and schedules a new
one `delay` later; `INITIAL`, `UNCHANGED` and `CHANGED` neither speak nor
touch the timer. -/
def feed (cfg : CAConfig) (t : Nat) (snap : Text) (st : CAState) : CAState :=
  let r := TextDiffer.update st.baseline snap
  match r.1.1 with
  | .appended => ⟨r.2, st.pending ++ r.1.2, some (t + cfg.delay)⟩
  | .lastLineUpdated => ⟨r.2, r.1.2, some (t + cfg.delay)⟩
  | _ => ⟨r.2, st.pending, st.timerAt⟩

/-- The "N new lines" summary text. -/
def summaryText (n : Nat) : Text := (toString n).toList ++ " new lines".toList

/-- Modelled from the spec: on timer fire, discard silently in quiet
mode; otherwise optionally strip ANSI, summarize when the pending text
exceeds `maxLines` lines, send the text to the output sink exactly once,
and clear the pending state. -/
def fire (cfg : CAConfig) (st : CAState) : CAState × List Text :=
  let cleared : CAState := ⟨st.baseline, [], none⟩
  if cfg.quiet then (cleared, [])
  else
    let txt := if cfg.ansiStrip then cfg.strip st.pending else st.pending
    let txt := if cfg.maxLines < (TextDiffer.lines txt).length then
        summaryText (TextDiffer.lines txt).length
      else txt
    (cleared, [txt])

/-- Discrete-event driver: feeds arrive in time order; a pending flush
timer fires as soon as its time is reached, and once more at the end if
still pending and due before `endT`.  The result collects the
`(fire time, spoken text)` events. -/
def run (cfg : CAConfig) : CAState → List (Nat × Text) → Nat → List (Nat × Text) × CAState
  | st, [], endT =>
    match st.timerAt with
    | some tf =>
      if tf ≤ endT then
        let fr := fire cfg st
        (fr.2.map fun x => (tf, x), fr.1)
      else ([], st)
    | none => ([], st)
  | st, (t, snap) :: rest, endT =>
    match st.timerAt with
    | some tf =>
      if tf ≤ t then
        let fr := fire cfg st
        let r := run cfg (feed cfg t snap fr.1) rest endT
        ((fr.2.map fun x => (tf, x)) ++ r.1, r.2)
      else run cfg (feed cfg t snap st) rest endT
    | none => run cfg (feed cfg t snap st) rest endT

/-- The snapshots of an append burst: each entry `(t, u)` feeds the
previous snapshot extended by the suffix `u` at time `t`. -/
def mkFeeds (s : Text) : List (Nat × Text) → List (Nat × Text)
  | [] => []
  | (t, u) :: rest => (t, s ++ u) :: mkFeeds (s ++ u) rest

/-- A burst is admissible after time `tprev` when each entry arrives no
earlier than its predecessor but strictly inside the predecessor's
coalesce window, with a nonempty appended suffix. -/
def burstOK (delay : Nat) : Nat → List (Nat × Text) → Prop
  | _, [] => True
  | tprev, (t, u) :: rest => tprev ≤ t ∧ t < tprev + delay ∧ u ≠ [] ∧ burstOK delay t rest

/-- The arrival time of the last entry of a burst (`d` for an empty
burst). -/
def lastTime : Nat → List (Nat × Text) → Nat
  | d, [] => d
  | _, (t, _) :: rest => lastTime t rest

/-- The concatenation of the appended suffixes of a burst. -/
def sufConcat : List (Nat × Text) → Text
  | [] => []
  | (_, u) :: rest => u ++ sufConcat rest

theorem update_append (s u : Text) (hu : u ≠ []) :
    TextDiffer.update (some s) (s ++ u) = ((.appended, u), some (s ++ u)) := by
  have h1 : s ≠ s ++ u := by
    intro h
    have hl := congrArg List.length h
    rw [List.length_append] at hl
    have : u.length = 0 := by omega
    exact hu (List.eq_nil_of_length_eq_zero this)
  have h2 : s <+: s ++ u := List.prefix_append s u
  simp [TextDiffer.update, h1, h2, List.drop_left]

theorem feed_append (cfg : CAConfig) (t : Nat) (s u p : Text) (ta : Option Nat)
    (hu : u ≠ []) :
    feed cfg t (s ++ u) ⟨some s, p, ta⟩ =
      ⟨some (s ++ u), p ++ u, some (t + cfg.delay)⟩ := by
  unfold feed
  rw [update_append s u hu]

/-- One admissible append burst, started with the timer pending from the
previous append at `tlast` and the suffixes so far in `pending`, flushes
exactly once, at `lastTime + delay`, speaking the accumulated text. -/
theorem run_burst (cfg : CAConfig) (hq : cfg.quiet = false)
    (hstrip : cfg.ansiStrip = false) :
    ∀ (rest : List (Nat × Text)) (s p : Text) (tlast endT : Nat),
      burstOK cfg.delay tlast rest →
      lastTime tlast rest + cfg.delay ≤ endT →
      (TextDiffer.lines (p ++ sufConcat rest)).length ≤ cfg.maxLines →
      run cfg ⟨some s, p, some (tlast + cfg.delay)⟩ (mkFeeds s rest) endT =
        ([(lastTime tlast rest + cfg.delay, p ++ sufConcat rest)],
          ⟨some (s ++ sufConcat rest), [], none⟩) := by
  intro rest
  induction rest with
  | nil =>
    intro s p tlast endT hok hend hlen
    simp only [mkFeeds, lastTime, sufConcat, List.append_nil] at *
    have hsum : ¬(cfg.maxLines < (TextDiffer.lines p).length) := by omega
    simp [run, fire, hq, hstrip, hend, hsum]
  | cons hd rest' ih =>
    obtain ⟨t, u⟩ := hd
    intro s p tlast endT hok hend hlen
    obtain ⟨hle, hlt, hu, hok'⟩ := hok
    simp only [mkFeeds, lastTime, sufConcat] at *
    have hnot : ¬(tlast + cfg.delay ≤ t) := by omega
    rw [run]
    simp only [hnot, if_false]
    rw [feed_append cfg t s u p _ hu]
    have := ih (s ++ u) (p ++ u) t endT hok' hend
      (by rw [List.append_assoc]; exact hlen)
    rw [this]
    simp [List.append_assoc]

end ChangeAnnouncer

open ChangeAnnouncer in
/-- C3 (modelled from the spec): starting fresh, feeding a baseline
snapshot and then a burst of appending snapshots, each arriving within
the coalesce window of its predecessor, produces exactly one spoken
event; it fires exactly one coalesce delay after the last append (so
nothing is spoken before the delay elapses), and its text is exactly the
concatenation of the appended suffixes — for the single-append burst,
exactly the appended suffix. -/
theorem changeAnnouncer_coalesces_burst :
    ∀ (cfg : CAConfig) (s0 u1 : Text) (t0 t1 endT : Nat)
      (rest : List (Nat × Text)),
      cfg.quiet = false → cfg.ansiStrip = false →
      u1 ≠ [] → t0 ≤ t1 →
      burstOK cfg.delay t1 rest →
      lastTime t1 rest + cfg.delay ≤ endT →
      (TextDiffer.lines (u1 ++ sufConcat rest)).length ≤ cfg.maxLines →
      run cfg ⟨none, [], none⟩
          ((t0, s0) :: mkFeeds s0 ((t1, u1) :: rest)) endT =
        ([(lastTime t1 rest + cfg.delay, u1 ++ sufConcat rest)],
          ⟨some ((s0 ++ u1) ++ sufConcat rest), [], none⟩) := by
  intro cfg s0 u1 t0 t1 endT rest hq hstrip hu1 ht01 hok hend hlen
  have hfeed0 : feed cfg t0 s0 ⟨none, [], none⟩ = ⟨some s0, [], none⟩ := by
    rfl
  rw [run]
  simp only [mkFeeds]
  rw [hfeed0, run]
  simp only []
  rw [feed_append cfg t1 s0 u1 [] none hu1]
  have hmain := run_burst cfg hq hstrip rest (s0 ++ u1) ([] ++ u1) t1 endT hok hend
    (by simpa using hlen)
  simpa using hmain

open ChangeAnnouncer in
/-- Witness for C3 at concrete inputs: baseline `"a"` at time 0, appends
`"b"` at 300 and `"c"` at 400 with a 200 ms delay coalesce into the
single event `(600, "bc")`. -/
theorem changeAnnouncer_coalesces_burst_witness :
    run ⟨200, false, false, id, 20⟩ ⟨none, [], none⟩
        ((0, "a".toList) :: mkFeeds "a".toList
          ((300, "b".toList) :: [(400, "c".toList)])) 10000 =
      ([(lastTime 300 [(400, "c".toList)] + 200,
          "b".toList ++ sufConcat [(400, "c".toList)])],
        ⟨some (("a".toList ++ "b".toList) ++ sufConcat [(400, "c".toList)]),
          [], none⟩) := by
  exact changeAnnouncer_coalesces_burst ⟨200, false, false, id, 20⟩
    "a".toList "b".toList 0 300 10000 [(400, "c".toList)] rfl rfl
    (by decide) (by decide)
    (show (300 : Nat) ≤ 400 ∧ (400 : Nat) < 300 + 200 ∧ "c".toList ≠ [] ∧ True from
      ⟨by decide, by decide, by decide, trivial⟩)
    (by decide) (by decide)

end TerminalAccess
